import Mathlib

/-
Verification of the plotng core against its specification.

The development shallowly embeds the two source files:
  * the plotng package (configuration store, job supervisor) in namespace Plotng;
  * the sortable-table widget in namespace Plotng.Widget.
Pure data manipulation is translated directly; effectful steps (file system,
process spawning, stream reads) are parameterised by an explicit view of the
outcome of each effect.  Go byte-slicing on log lines is modelled on the
character list of a string (all recognised markers and payloads are ASCII, so
byte indices and character indices agree).
-/

set_option maxHeartbeats 1000000

namespace Plotng

/-- Unit constant from the source: KB = 1024 bytes. -/
def KB : Nat := 1024

/-- First of the iota job-state constants: PlotRunning = 0. -/
def PlotRunning : Nat := 0

/-- Second iota job-state constant: PlotError = 1. -/
def PlotError : Nat := 1

/-- Third iota job-state constant: PlotFinished = 2. -/
def PlotFinished : Nat := 2

/-- The fields of ActivePlot read by the argument template of RunPlot
(PlotDir is the working/temporary directory, TargetDir the destination
directory, as rendered by ActivePlot.String as Tmp Dir and Dst Dir). -/
structure ActivePlot where
  plotDir : String
  targetDir : String
  fingerprint : String
deriving DecidableEq

/-- Argument vector RunPlot hands to the external chia process:
plots create -k32 -n1 -b6000 -u128, then "-t" + ap.TargetDir,
"-d" + ap.TargetDir, "-a" + ap.Fingerprint, in that order. -/
def plotArgs (ap : ActivePlot) : List String :=
  ["plots", "create", "-k32", "-n1", "-b6000", "-u128",
   "-t" ++ ap.targetDir, "-d" ++ ap.targetDir, "-a" ++ ap.fingerprint]

/-- ActivePlot.CheckSpace, parameterised by the available-byte counts that
du.NewDiskUsage reports for PlotDir and TargetDir: each must be at least
360*KB*KB*KB bytes or the check fails (on the first shortfall it logs and
returns false). -/
def CheckSpace (plotAvail targetAvail : Nat) : Bool :=
  if plotAvail < 360 * KB * KB * KB then false
  else if targetAvail < 360 * KB * KB * KB then false
  else true

/-- Outcome view of the three effectful steps RunPlot performs: obtaining the
stderr pipe, obtaining the stdout pipe, and cmd.Run (which returns an error
both on failure to start and on a non-zero exit). -/
structure RunEnv where
  stderrPipeOk : Bool
  stdoutPipeOk : Bool
  runOk : Bool
deriving DecidableEq

/-- Observable result of RunPlot: the final State field, and whether the
StartTime / EndTime fields were written. -/
structure RunOutcome where
  state : Nat
  startRecorded : Bool
  endRecorded : Bool
deriving DecidableEq

/-- Control flow of ActivePlot.RunPlot: StartTime is set first and a deferred
assignment writes EndTime on every return path, so both are recorded in every
outcome.  State is set to PlotRunning before the pipes are requested; a failed
stderr pipe, a failed stdout pipe, or an error from cmd.Run each set State to
PlotError and return; otherwise State is left at PlotRunning. -/
def RunPlot (env : RunEnv) : RunOutcome :=
  if !env.stderrPipeOk then ⟨PlotError, true, true⟩
  else if !env.stdoutPipeOk then ⟨PlotError, true, true⟩
  else if !env.runOk then ⟨PlotError, true, true⟩
  else ⟨PlotRunning, true, true⟩

/-- Go strings.HasPrefix on the character list (ASCII). -/
def goHasPrefix (s p : String) : Bool := List.isPrefixOf p.data s.data

/-- Go slice expression s[a:] on the character list (ASCII). -/
def goSliceFrom (s : String) (a : Nat) : String := ⟨s.data.drop a⟩

/-- Go slice expression s[a:b] on the character list (ASCII); only used where
the Go index b is within bounds (otherwise Go panics). -/
def goSlice (s : String) (a b : Nat) : String := ⟨(s.data.take b).drop a⟩

/-- Go len(s) on the character list (ASCII). -/
def goLen (s : String) : Nat := s.data.length

/-- The fields of ActivePlot that processLogs mutates. -/
structure Job where
  phase : String
  id : String
  tail : List String
deriving DecidableEq

/-- A freshly constructed job: Phase, Id and Tail have their Go zero values. -/
def initJob : Job := ⟨"", "", []⟩

/-- The tail update of processLogs: append the line, then if the tail holds
more than 10 entries keep only Tail[len(Tail)-10:]. -/
def tailStep (t : List String) (s : String) : List String :=
  let t2 := t ++ [s]
  if 10 < t2.length then t2.drop (t2.length - 10) else t2

/-- One iteration of the processLogs loop on the chunk s that
reader.ReadString delivered (s retains its trailing newline; a final chunk
not terminated by a newline is returned together with an error and the loop
breaks without processing it).  The three updates are independent field
assignments in the source: Phase from s[15:18] when s has the phase prefix,
Id from s[4:] when s has the id prefix, and the bounded tail append. -/
def processLine (j : Job) (s : String) : Job :=
  { phase := if goHasPrefix s "Starting phase " then goSlice s 15 18 else j.phase,
    id := if goHasPrefix s "ID: " then goSliceFrom s 4 else j.id,
    tail := tailStep j.tail s }

/-- ActivePlot.processLogs over the list of newline-terminated chunks a
stream delivered before end-of-stream. -/
def processLogs (j : Job) (lines : List String) : Job := lines.foldl processLine j

/-- The configuration document: TargetDirectory, TempDirectory, NumberOfPlots,
Fingerprint. -/
structure Config where
  targetDirectory : List String
  tempDirectory : List String
  numberOfPlots : Int
  fingerprint : String
deriving DecidableEq

/-- The mutable fields of PlotConfig: the published snapshot pointer
(CurrentConfig, nil before the first successful load) and the last observed
modification time (modelled as a number). -/
structure PCState where
  currentConfig : Option Config
  lastMod : Nat
deriving DecidableEq

/-- Outcome view of the file-system effects of one ProcessConfig call:
the stat result (none models an Lstat error, some mt the reported
modification time), whether os.Open succeeds, and the decode result
(none models a JSON decode error). -/
structure FsView where
  statModTime : Option Nat
  openOk : Bool
  decodeResult : Option Config
deriving DecidableEq

/-- Result of one ProcessConfig call: the new state, plus whether the call
invoked os.Open and whether it invoked the JSON decoder. -/
structure PollTrace where
  state : PCState
  opened : Bool
  decodeRan : Bool
deriving DecidableEq

/-- PlotConfig.ProcessConfig: a stat failure only logs; an unchanged
modification time does nothing; otherwise the file is opened and decoded,
the snapshot is replaced only on a successful decode, and LastMod is set to
the stat's modification time on every path inside the changed-time branch
(including open and decode failures, since the assignment follows the
open/decode block unconditionally). -/
def ProcessConfig (pc : PCState) (fs : FsView) : PollTrace :=
  match fs.statModTime with
  | none => ⟨pc, false, false⟩
  | some mt =>
    if pc.lastMod ≠ mt then
      if !fs.openOk then ⟨{ pc with lastMod := mt }, true, false⟩
      else
        match fs.decodeResult with
        | none => ⟨{ pc with lastMod := mt }, true, true⟩
        | some c => ⟨{ currentConfig := some c, lastMod := mt }, true, true⟩
    else ⟨pc, false, false⟩

namespace Widget

/-- A table entry: key plus the optionally-present row data (the Go data field
is a SortableRow interface value which may be nil).  Present data is a struct
whose exported fields hold the column values; the values are modelled as
integers, since every kind branch of the comparator (string, the signed
integer kinds, the unsigned integer kinds, time.Time) compares two values of
the matching kind with that kind's strict order and the branches all have the
same shape. -/
structure TableRow where
  key : String
  data : Option (List Int)
deriving DecidableEq

/-- The closure SortedTable.sortData passes to sort.SliceStable: a nil second
row compares as less (so missing data sinks to the end) before the direction
flag is ever consulted; a nil first row compares as not-less; two present rows
with differing field counts, or fewer fields than the sort column, compare as
not-less; otherwise the column values are compared with the strict order and
the result is XORed with the reverse flag (the Go expression
f1 < f2 != st.sortReverse).  The case numFields = sortColumn, where Go would
panic in Field, is given a total value here and avoided by every theorem. -/
def lessRow (col : Nat) (rev : Bool) (r1 r2 : TableRow) : Bool :=
  match r2.data with
  | none => true
  | some v2 =>
    match r1.data with
    | none => false
    | some v1 =>
      if v1.length ≠ v2.length ∨ v1.length < col then false
      else (decide (v1.getD col 0 < v2.getD col 0) != rev)

/-- One insertion step of the straight insertion sort Go's sort.SliceStable
runs (sort.stable performs insertion sort on blocks of 20 elements, so for
slices of at most 20 entries SliceStable is exactly insertion sort; the
element is moved left past each consecutive predecessor it compares less
than).  The accumulated prefix is kept reversed, so the head is the
rightmost element. -/
def insertRev (less : TableRow → TableRow → Bool) (x : TableRow) :
    List TableRow → List TableRow
  | [] => [x]
  | p :: rest => if less x p then p :: insertRev less x rest else x :: p :: rest

/-- The insertion sort of sort.SliceStable (exact for slices of at most 20
entries, the regime of every concrete evaluation below): fold the entries
left to right into a reversed sorted prefix, then restore orientation. -/
def sortValues (less : TableRow → TableRow → Bool) (l : List TableRow) :
    List TableRow :=
  (l.foldl (fun acc x => insertRev less x acc) []).reverse

/-- The fields of SortedTable that the selection and sorting claims touch:
the entry list, the remembered selected display row (0 = none, data rows
start at 1), the remembered selected key, and the active sort column and
direction. -/
structure SortedTable where
  values : List TableRow
  curRow : Nat
  curKey : String
  sortColumn : Nat
  sortReverse : Bool
deriving DecidableEq

/-- NewSortedTable: empty entry list, no selection, first column ascending. -/
def NewSortedTable : SortedTable := ⟨[], 0, "", 0, false⟩

/-- Index of the first entry with the given key, as the loop in
SortedTable.Select computes it. -/
def findKey : List TableRow → String → Option Nat
  | [], _ => none
  | r :: rest, k => if r.key = k then some 0 else (findKey rest k).map (· + 1)

/-- SortedTable.GetSelection: when curRow > 0 it returns
st.values[st.curRow-1].key with no bounds check — none models the Go panic
when the index is out of range; when curRow = 0 it returns the empty string
(no selection). -/
def GetSelection (st : SortedTable) : Option String :=
  if 0 < st.curRow then (st.values.get? (st.curRow - 1)).map TableRow.key
  else some ""

/-- SortedTable.Select: find the first entry with the key and select its
display row; the tview selection-changed callback then stores curRow and the
key read back from the entry list.  A key that is not present leaves the
table untouched. -/
def Select (st : SortedTable) (k : String) : SortedTable :=
  match findKey st.values k with
  | some i => { st with curRow := i + 1, curKey := k }
  | none => st

/-- Entry-list update of SortedTable.SetRowData: replace the data of the
first entry with this key, else append a new entry. -/
def SetRowDataList : List TableRow → String → Option (List Int) → List TableRow
  | [], k, d => [⟨k, d⟩]
  | r :: rest, k, d =>
    if r.key = k then ⟨r.key, d⟩ :: rest else r :: SetRowDataList rest k d

/-- SortedTable.SetRowData. -/
def SetRowData (st : SortedTable) (k : String) (d : Option (List Int)) :
    SortedTable :=
  { st with values := SetRowDataList st.values k d }

/-- SortedTable.ClearRowData: keep every entry whose key differs, preserving
their order (the source compacts in place; the effect on the entry list is a
filter). -/
def ClearRowData (st : SortedTable) (k : String) : SortedTable :=
  { st with values := st.values.filter (fun r => r.key != k) }

/-- SortedTable.sortData: stable-sort the entry list by the active column and
direction. -/
def sortData (st : SortedTable) : SortedTable :=
  { st with values := sortValues (lessRow st.sortColumn st.sortReverse) st.values }

/-- SortedTable.Redraw: capture GetSelection, sort, rebuild the cells
(updateData touches no modelled field), then re-Select the captured key.
none models the panic that GetSelection raises when its stored row index is
out of range. -/
def Redraw (st : SortedTable) : Option SortedTable :=
  match GetSelection st with
  | none => none
  | some k => some (Select (sortData st) k)

end Widget

/-- C1 (amended): the argument vector RunPlot builds uses the job's target
directory for both the temporary-space argument (position 6) and the
destination-space argument (position 7), and the job's fingerprint for the
pool/farmer key argument (position 8). -/
theorem runPlot_args_target_dir (ap : ActivePlot) :
    (plotArgs ap).get? 6 = some ("-t" ++ ap.targetDir)
    ∧ (plotArgs ap).get? 7 = some ("-d" ++ ap.targetDir)
    ∧ (plotArgs ap).get? 8 = some ("-a" ++ ap.fingerprint)
    ∧ (plotArgs ap).length = 9 :=
  ⟨rfl, rfl, rfl, rfl⟩

/-- C1 (counterexample to the claim as stated): for a job whose working
directory is "/work" and target directory is "/dst", no argument mentions the
working directory — the temporary-space argument is "-t/dst", not "-t/work",
so the argument vector does not use the job's working directory for the
temporary-space and destination-space arguments. -/
theorem runPlot_args_not_workdir_cex :
    ("-t" ++ (ActivePlot.mk "/work" "/dst" "fp").plotDir)
      ∉ plotArgs (ActivePlot.mk "/work" "/dst" "fp")
    ∧ (plotArgs (ActivePlot.mk "/work" "/dst" "fp")).get? 6 = some "-t/dst"
    ∧ (plotArgs (ActivePlot.mk "/work" "/dst" "fp")).get? 7 = some "-d/dst"
    ∧ ("-t/dst" : String) ≠ "-t" ++ "/work" := by
  refine ⟨by decide, rfl, rfl, by decide⟩

/-- C2 (amended): a chunk that begins with the phase marker sets the phase to
the three characters at offset 15 (so the chunk for the log line
Starting phase 2/6 yields phase 2/6), and a chunk that begins with the
identifier marker sets the identifier to the remainder of the chunk — which
retains the chunk's trailing newline, since ReadString delivers the line
terminator as part of the chunk. -/
theorem scrape_phase_id_extraction :
    (∀ (j : Job) (s : String), goHasPrefix s "Starting phase " = true →
      18 ≤ goLen s → (processLine j s).phase = goSlice s 15 18)
    ∧ (∀ (j : Job) (s : String), goHasPrefix s "ID: " = true →
      (processLine j s).id = goSliceFrom s 4)
    ∧ (∀ j : Job, (processLine j "Starting phase 2/6\n").phase = "2/6")
    ∧ (∀ j : Job, (processLine j "ID: abc123\n").id = "abc123\n") := by
  refine ⟨fun j s h _ => ?_, fun j s h => ?_, fun j => ?_, fun j => ?_⟩
  · simp [processLine, h]
  · simp [processLine, h]
  · show (if goHasPrefix "Starting phase 2/6\n" "Starting phase "
        then goSlice "Starting phase 2/6\n" 15 18 else j.phase) = "2/6"
    rw [if_pos (by decide)]
    decide
  · show (if goHasPrefix "ID: abc123\n" "ID: "
        then goSliceFrom "ID: abc123\n" 4 else j.id) = "abc123\n"
    rw [if_pos (by decide)]
    decide

/-- C2 (witness): the amended theorem applied to a fresh job and the concrete
chunks of the scenario. -/
theorem scrape_phase_id_extraction_wit :
    (processLine initJob "Starting phase 2/6\n").phase
      = goSlice "Starting phase 2/6\n" 15 18
    ∧ (processLine initJob "ID: abc123\n").id = goSliceFrom "ID: abc123\n" 4 :=
  ⟨scrape_phase_id_extraction.1 initJob "Starting phase 2/6\n"
      (by decide) (by decide),
   scrape_phase_id_extraction.2.1 initJob "ID: abc123\n" (by decide)⟩

/-- C2 (counterexample to the claim as stated): the chunk delivered for the
log line ID: abc123 is "ID: abc123\n", and processing it sets the identifier
to "abc123\n" — the remainder including the newline — which differs from the
"abc123" the claim promises. -/
theorem scrape_id_keeps_newline_cex :
    (processLine initJob "ID: abc123\n").id = "abc123\n"
    ∧ ("abc123\n" : String) ≠ "abc123" := by
  refine ⟨?_, by decide⟩
  show (if goHasPrefix "ID: abc123\n" "ID: "
      then goSliceFrom "ID: abc123\n" 4 else initJob.id) = "abc123\n"
  rw [if_pos (by decide)]
  decide

/-- C4: CheckSpace grants admission exactly when both directories report at
least 360 GiB available; 300 GiB on the working directory is denied, 400 GiB
on both is granted. -/
theorem checkSpace_iff :
    (∀ p t : Nat, CheckSpace p t = true ↔
      360 * KB * KB * KB ≤ p ∧ 360 * KB * KB * KB ≤ t)
    ∧ CheckSpace (300 * KB * KB * KB) (400 * KB * KB * KB) = false
    ∧ CheckSpace (400 * KB * KB * KB) (400 * KB * KB * KB) = true := by
  refine ⟨fun p t => ?_, by decide, by decide⟩
  unfold CheckSpace
  by_cases h1 : p < 360 * KB * KB * KB
  · rw [if_pos h1]
    exact iff_of_false (by decide) (fun hc => absurd h1 (Nat.not_lt.mpr hc.1))
  · rw [if_neg h1]
    by_cases h2 : t < 360 * KB * KB * KB
    · rw [if_pos h2]
      exact iff_of_false (by decide) (fun hc => absurd h2 (Nat.not_lt.mpr hc.2))
    · rw [if_neg h2]
      exact iff_of_true rfl ⟨Nat.not_lt.mp h1, Nat.not_lt.mp h2⟩

/-- C5: every exit path of RunPlot records both timestamps; a pipe failure or
a cmd.Run error leaves the state at PlotError, a clean run leaves it at
PlotRunning, and no path produces PlotFinished. -/
theorem runPlot_exit_paths (env : RunEnv) :
    (RunPlot env).endRecorded = true
    ∧ (RunPlot env).startRecorded = true
    ∧ ((env.stderrPipeOk = false ∨ env.stdoutPipeOk = false ∨ env.runOk = false) →
        (RunPlot env).state = PlotError)
    ∧ (env.stderrPipeOk = true → env.stdoutPipeOk = true → env.runOk = true →
        (RunPlot env).state = PlotRunning)
    ∧ (RunPlot env).state ≠ PlotFinished := by
  obtain ⟨a, b, c⟩ := env
  cases a <;> cases b <;> cases c <;> decide

/-- C5 (witness): a run whose process exits non-zero ends in PlotError, and a
clean run ends in PlotRunning. -/
theorem runPlot_exit_paths_wit :
    (RunPlot ⟨true, true, false⟩).state = PlotError
    ∧ (RunPlot ⟨true, true, true⟩).state = PlotRunning :=
  ⟨(runPlot_exit_paths ⟨true, true, false⟩).2.2.1 (Or.inr (Or.inr rfl)),
   (runPlot_exit_paths ⟨true, true, true⟩).2.2.2.1 rfl rfl rfl⟩

/-- Helper: processLine only ever touches the tail through tailStep, so the
tail of a processed job is the tailStep-fold of the chunk list. -/
theorem processLogs_tail (L : List String) :
    ∀ j : Job, (processLogs j L).tail = L.foldl tailStep j.tail := by
  induction L with
  | nil => intro j; rfl
  | cons s L ih =>
    intro j
    show (processLogs (processLine j s) L).tail = _
    rw [ih (processLine j s)]
    rfl

/-- Helper: one tailStep applied to the last-10 suffix of M extends the
suffix window by one position. -/
theorem tailStep_drop (M : List String) (s : String) :
    tailStep (M.drop (M.length - 10)) s = (M ++ [s]).drop (M.length + 1 - 10) := by
  unfold tailStep
  by_cases hM : M.length ≤ 9
  · have h0 : M.length - 10 = 0 := by omega
    have h1 : M.length + 1 - 10 = 0 := by omega
    rw [h0, h1, List.drop_zero, List.drop_zero]
    have hlen : ¬ 10 < (M ++ [s]).length := by
      rw [List.length_append]; simp; omega
    simp only [hlen, if_false]
  · have h10 : 10 ≤ M.length := by omega
    have hdlen : (M.drop (M.length - 10)).length = 10 := by
      rw [List.length_drop]; omega
    have hlen : 10 < (M.drop (M.length - 10) ++ [s]).length := by
      rw [List.length_append, hdlen, List.length_singleton]
      omega
    simp only [hlen, if_true]
    have hsub : (M.drop (M.length - 10) ++ [s]).length - 10 = 1 := by
      rw [List.length_append, hdlen, List.length_singleton]
    rw [hsub]
    rw [List.drop_append_of_le_length (by rw [hdlen]; omega)]
    rw [List.drop_drop]
    have h2 : M.length + 1 - 10 = M.length - 10 + 1 := by omega
    rw [h2]
    rw [List.drop_append_of_le_length (by omega)]

/-- Helper: folding tailStep from an empty tail yields exactly the last ten
chunks. -/
theorem tailFold_drop (L : List String) :
    L.foldl tailStep [] = L.drop (L.length - 10) := by
  induction L using List.reverseRecOn with
  | nil => rfl
  | append_singleton M s ih =>
    rw [List.foldl_append]
    show tailStep (M.foldl tailStep []) s = _
    rw [ih, tailStep_drop]
    rw [List.length_append, List.length_singleton]

/-- C3: starting from a fresh job, after processing any chunk list L the tail
is exactly the most recent ten chunks in their original order (all of L when
L has at most ten chunks), and in particular the tail never holds more than
ten entries. -/
theorem scrape_tail_bounded (L : List String) :
    (processLogs initJob L).tail = L.drop (L.length - 10)
    ∧ (processLogs initJob L).tail.length ≤ 10 := by
  have h := processLogs_tail L initJob
  have h2 : (processLogs initJob L).tail = L.drop (L.length - 10) := by
    rw [h]; exact tailFold_drop L
  refine ⟨h2, ?_⟩
  rw [h2, List.length_drop]
  omega

/-- C6: ProcessConfig leaves the published snapshot untouched on a stat
failure, an open failure, or a decode failure; and whenever the modification
time changed but the open or the decode failed, the observed modification
time is still advanced, so a second call that observes the same modification
time neither opens nor decodes the file and changes nothing. -/
theorem processConfig_failure_behavior (pc : PCState) (fs : FsView) :
    (fs.statModTime = none → ProcessConfig pc fs = ⟨pc, false, false⟩)
    ∧ (fs.openOk = false →
        (ProcessConfig pc fs).state.currentConfig = pc.currentConfig)
    ∧ (fs.decodeResult = none →
        (ProcessConfig pc fs).state.currentConfig = pc.currentConfig)
    ∧ (∀ mt : Nat, fs.statModTime = some mt → pc.lastMod ≠ mt →
        (fs.openOk = false ∨ fs.decodeResult = none) →
        (ProcessConfig pc fs).state.lastMod = mt
        ∧ (ProcessConfig pc fs).state.currentConfig = pc.currentConfig
        ∧ ∀ fs2 : FsView, fs2.statModTime = some mt →
            ProcessConfig (ProcessConfig pc fs).state fs2
              = ⟨(ProcessConfig pc fs).state, false, false⟩) := by
  obtain ⟨stat, openOk, dec⟩ := fs
  refine ⟨?_, ?_, ?_, ?_⟩
  · intro h
    simp only at h
    subst h
    rfl
  · intro h
    simp only at h
    subst h
    cases stat with
    | none => rfl
    | some mt =>
      by_cases hmod : pc.lastMod ≠ mt
      · simp [ProcessConfig, hmod]
      · simp [ProcessConfig, hmod]
  · intro h
    simp only at h
    subst h
    cases stat with
    | none => rfl
    | some mt =>
      by_cases hmod : pc.lastMod ≠ mt
      · cases openOk <;> simp [ProcessConfig, hmod]
      · simp [ProcessConfig, hmod]
  · intro mt hstat hmod hfail
    simp only at hstat
    subst hstat
    have hstate : (ProcessConfig pc ⟨some mt, openOk, dec⟩).state
        = { pc with lastMod := mt } := by
      rcases hfail with h | h
      · simp only at h; subst h; simp [ProcessConfig, hmod]
      · simp only at h; subst h
        cases openOk <;> simp [ProcessConfig, hmod]
    refine ⟨by rw [hstate], by rw [hstate], fun fs2 h2 => ?_⟩
    obtain ⟨stat2, open2, dec2⟩ := fs2
    simp only at h2
    subst h2
    have hsame : ({ pc with lastMod := mt } : PCState).lastMod = mt := rfl
    rw [hstate]
    simp [ProcessConfig, hsame]

/-- C6 (witness): a first poll that sees a changed modification time but
fails to open the file keeps the nil snapshot yet advances the observed
modification time, and a second poll seeing the same time is a no-op that
performs no open and no decode, even though the file would now decode. -/
theorem processConfig_failure_wit :
    (ProcessConfig ⟨none, 0⟩ ⟨some 5, false, none⟩).state.lastMod = 5
    ∧ (ProcessConfig ⟨none, 0⟩ ⟨some 5, false, none⟩).state.currentConfig = none
    ∧ ProcessConfig (ProcessConfig ⟨none, 0⟩ ⟨some 5, false, none⟩).state
        ⟨some 5, true, some ⟨[], [], 1, "fp"⟩⟩
      = ⟨(ProcessConfig ⟨none, 0⟩ ⟨some 5, false, none⟩).state, false, false⟩ := by
  have h := (processConfig_failure_behavior ⟨none, 0⟩ ⟨some 5, false, none⟩).2.2.2
    5 rfl (by decide) (Or.inl rfl)
  exact ⟨h.1, h.2.1, h.2.2 ⟨some 5, true, some ⟨[], [], 1, "fp"⟩⟩ rfl⟩

namespace Widget

/-- C7: a row with missing data sorts after a row with present data in both
directions — the comparator answers true for (present, missing) and false for
(missing, present) whatever the direction flag is; and for two present rows
with the same field count and the sort column in range, flipping the
direction flag negates the comparator's answer. -/
theorem lessRow_rules (col : Nat) (r1 r2 : TableRow) :
    (∀ rev : Bool, r1.data ≠ none → r2.data = none →
      lessRow col rev r1 r2 = true ∧ lessRow col rev r2 r1 = false)
    ∧ (∀ v1 v2 : List Int, r1.data = some v1 → r2.data = some v2 →
        v1.length = v2.length → col < v1.length →
        lessRow col true r1 r2 = !(lessRow col false r1 r2)) := by
  constructor
  · intro rev h1 h2
    obtain ⟨v1, hv1⟩ := Option.ne_none_iff_exists.mp h1
    constructor
    · simp [lessRow, h2]
    · simp [lessRow, ← hv1, h2]
  · intro v1 v2 h1 h2 hlen hcol
    have hcond : ¬ (v1.length ≠ v2.length ∨ v1.length < col) := by omega
    simp only [lessRow, h1, h2, if_neg hcond]
    cases decide (v1.getD col 0 < v2.getD col 0) <;> rfl

/-- C7 (witness): the comparator rules at concrete rows — a present row
against a missing row in reversed direction, and two present single-field
rows. -/
theorem lessRow_rules_wit :
    (lessRow 0 true ⟨"p", some [1]⟩ ⟨"q", none⟩ = true
      ∧ lessRow 0 true ⟨"q", none⟩ ⟨"p", some [1]⟩ = false)
    ∧ lessRow 0 true ⟨"p", some [1]⟩ ⟨"q", some [2]⟩
        = !(lessRow 0 false ⟨"p", some [1]⟩ ⟨"q", some [2]⟩) :=
  ⟨(lessRow_rules 0 ⟨"p", some [1]⟩ ⟨"q", none⟩).1 true (by decide) rfl,
   (lessRow_rules 0 ⟨"p", some [1]⟩ ⟨"q", some [2]⟩).2 [1] [2] rfl rfl rfl
     (by decide)⟩

/-- C8 (divergence of the code from the stability the spec states): with the
sort direction reversed, two rows whose sort-column values are equal make the
comparator answer true in both argument orders, and the insertion sort that
sort.SliceStable runs on a two-element slice therefore swaps them — the rows
do not retain their relative order, only the forward direction preserves it. -/
theorem sliceStable_reverse_swaps_equal :
    sortValues (lessRow 0 false) [⟨"x", some [5]⟩, ⟨"y", some [5]⟩]
      = [⟨"x", some [5]⟩, ⟨"y", some [5]⟩]
    ∧ sortValues (lessRow 0 true) [⟨"x", some [5]⟩, ⟨"y", some [5]⟩]
      = [⟨"y", some [5]⟩, ⟨"x", some [5]⟩]
    ∧ lessRow 0 true ⟨"x", some [5]⟩ ⟨"y", some [5]⟩ = true
    ∧ lessRow 0 true ⟨"y", some [5]⟩ ⟨"x", some [5]⟩ = true := by
  refine ⟨by decide, by decide, by decide, by decide⟩

/-- C10: the stored selected-row position survives entry removal unchecked —
after inserting rows a and b, selecting b and then clearing b, the stored
position still points at display row 2 while only one entry remains, so
GetSelection (and hence Redraw, which calls it) reads the entry list out of
range instead of producing the empty no-selection value. -/
theorem getSelection_out_of_range :
    (ClearRowData (Select (SetRowData (SetRowData NewSortedTable "a" (some [0]))
        "b" (some [1])) "b") "b").curRow = 2
    ∧ (ClearRowData (Select (SetRowData (SetRowData NewSortedTable "a" (some [0]))
        "b" (some [1])) "b") "b").values.length = 1
    ∧ GetSelection (ClearRowData (Select (SetRowData (SetRowData NewSortedTable
        "a" (some [0])) "b" (some [1])) "b") "b") = none
    ∧ Redraw (ClearRowData (Select (SetRowData (SetRowData NewSortedTable
        "a" (some [0])) "b" (some [1])) "b") "b") = none := by
  refine ⟨by decide, by decide, by decide, by decide⟩

/-- Helper: one insertion step produces a permutation of pushing the element
on top. -/
theorem insertRev_perm (less : TableRow → TableRow → Bool) (x : TableRow) :
    ∀ l : List TableRow, List.Perm (insertRev less x l) (x :: l) := by
  intro l
  induction l with
  | nil => exact List.Perm.refl _
  | cons p rest ih =>
    by_cases h : less x p
    · simp only [insertRev, h, if_true]
      exact (ih.cons p).trans (List.Perm.swap x p rest)
    · simp only [insertRev, h, if_false]
      exact List.Perm.refl _

/-- Helper: the insertion-sort fold permutes its input. -/
theorem foldl_insertRev_perm (less : TableRow → TableRow → Bool) :
    ∀ l acc : List TableRow,
      List.Perm (l.foldl (fun a y => insertRev less y a) acc) (l ++ acc) := by
  intro l
  induction l with
  | nil => intro acc; exact List.Perm.refl _
  | cons x l ih =>
    intro acc
    have h1 := ih (insertRev less x acc)
    have h2 : List.Perm (l ++ insertRev less x acc) (l ++ (x :: acc)) :=
      List.Perm.append_left l (insertRev_perm less x acc)
    have h3 : List.Perm (l ++ x :: acc) (x :: (l ++ acc)) := List.perm_middle
    exact (h1.trans h2).trans h3

/-- Helper: sortValues permutes the entry list. -/
theorem sortValues_perm (less : TableRow → TableRow → Bool) (l : List TableRow) :
    List.Perm (sortValues less l) l := by
  have h1 := foldl_insertRev_perm less l []
  have h2 := (List.reverse_perm (l.foldl (fun a y => insertRev less y a) [])).trans h1
  simpa [sortValues] using h2

/-- Helper: a successful findKey returns an in-range index whose entry bears
the key. -/
theorem findKey_spec :
    ∀ (l : List TableRow) (k : String) (i : Nat), findKey l k = some i →
      ∃ h : i < l.length, (l.get ⟨i, h⟩).key = k := by
  intro l
  induction l with
  | nil => intro k i h; simp [findKey] at h
  | cons r rest ih =>
    intro k i h
    by_cases hk : r.key = k
    · simp only [findKey, hk, if_pos, if_true] at h
      obtain rfl : (0 : Nat) = i := Option.some.inj h
      exact ⟨Nat.succ_pos _, hk⟩
    · simp only [findKey, hk, if_false] at h
      obtain ⟨i2, hi2, rfl⟩ := Option.map_eq_some'.mp h
      obtain ⟨hlt, hkey⟩ := ih k i2 hi2
      exact ⟨Nat.succ_lt_succ hlt, hkey⟩

/-- Helper: a key that occurs in the entry list is found by findKey. -/
theorem findKey_of_mem :
    ∀ (l : List TableRow) (k : String), k ∈ l.map TableRow.key →
      ∃ i, findKey l k = some i := by
  intro l
  induction l with
  | nil => intro k hm; simp at hm
  | cons r rest ih =>
    intro k hm
    by_cases hk : r.key = k
    · exact ⟨0, by simp [findKey, hk]⟩
    · have hm2 : k ∈ rest.map TableRow.key := by
        rcases List.mem_map.mp hm with ⟨r2, hr2, hkey⟩
        rcases List.mem_cons.mp hr2 with h | h
        · exact absurd (h ▸ hkey) hk
        · exact List.mem_map.mpr ⟨r2, h, hkey⟩
      obtain ⟨i, hi⟩ := ih k hm2
      exact ⟨i + 1, by simp [findKey, hk, hi]⟩

/-- Helper: relating getD to get on an in-range index. -/
theorem getD_eq_get (l : List TableRow) (i : Nat) (h : i < l.length) :
    l.getD i ⟨"", none⟩ = l.get ⟨i, h⟩ := by
  rw [List.getD_eq_getElem?_getD, List.getElem?_eq_getElem h]
  rfl

/-- Helper: whenever the stored row position is in range, Redraw captures the
key of the entry at that position, sorts, re-selects that key, and the final
selection is exactly that captured key. -/
theorem redraw_reselect (st : SortedTable) (h0 : 0 < st.curRow)
    (h1 : st.curRow - 1 < st.values.length) :
    Option.bind (Redraw st) GetSelection
      = some ((st.values.getD (st.curRow - 1) ⟨"", none⟩).key) := by
  have hgetd := getD_eq_get st.values (st.curRow - 1) h1
  have hg : GetSelection st
      = some ((st.values.getD (st.curRow - 1) ⟨"", none⟩).key) := by
    unfold GetSelection
    rw [if_pos h0, List.get?_eq_get h1, hgetd]
    rfl
  have hr : Redraw st = some (Select (sortData st)
      ((st.values.getD (st.curRow - 1) ⟨"", none⟩).key)) := by
    unfold Redraw
    rw [hg]
  have hmem : (st.values.getD (st.curRow - 1) ⟨"", none⟩).key
      ∈ st.values.map TableRow.key := by
    rw [hgetd]
    exact List.mem_map_of_mem TableRow.key (List.get_mem st.values _ _)
  have hperm : List.Perm (sortValues (lessRow st.sortColumn st.sortReverse)
      st.values) st.values := sortValues_perm _ _
  have hmem2 : (st.values.getD (st.curRow - 1) ⟨"", none⟩).key
      ∈ (sortData st).values.map TableRow.key :=
    ((hperm.map TableRow.key).mem_iff).mpr hmem
  obtain ⟨j, hj⟩ := findKey_of_mem (sortData st).values _ hmem2
  obtain ⟨hjlt, hjkey⟩ := findKey_spec (sortData st).values _ j hj
  rw [hr]
  show GetSelection (Select (sortData st) _) = _
  unfold Select
  rw [hj]
  show GetSelection { sortData st with curRow := j + 1, curKey := _ } = _
  unfold GetSelection
  rw [if_pos (Nat.succ_pos j)]
  show ((sortData st).values.get? (j + 1 - 1)).map TableRow.key = _
  have hj1 : j + 1 - 1 = j := rfl
  rw [hj1, List.get?_eq_get hjlt]
  show some (((sortData st).values.get ⟨j, hjlt⟩).key) = _
  rw [hjkey]

/-- C9 (amended): selecting a present key and then redrawing (with the table
otherwise unchanged) leaves the selection at that key; but whenever the
stored row position is in range at redraw time — in particular after the
selected key was removed and at least that many entries remain — the
selection after Redraw is the key of the entry at the stale position, not the
empty no-selection value (and when the stale position is out of range the
capture step fails, see the out-of-range theorem). -/
theorem redraw_selection_behavior :
    (∀ (st : SortedTable) (k : String) (i : Nat), findKey st.values k = some i →
      Option.bind (Redraw (Select st k)) GetSelection = some k)
    ∧ (∀ st : SortedTable, 0 < st.curRow → st.curRow - 1 < st.values.length →
      Option.bind (Redraw st) GetSelection
        = some ((st.values.getD (st.curRow - 1) ⟨"", none⟩).key)) := by
  constructor
  · intro st k i hi
    obtain ⟨hlt, hkey⟩ := findKey_spec st.values k i hi
    have hsel : Select st k = { st with curRow := i + 1, curKey := k } := by
      unfold Select
      rw [hi]
    have h0 : 0 < (Select st k).curRow := by rw [hsel]; exact Nat.succ_pos i
    have h1 : (Select st k).curRow - 1 < (Select st k).values.length := by
      rw [hsel]
      simpa using hlt
    have hfin := redraw_reselect (Select st k) h0 h1
    rw [hfin, hsel]
    show some ((st.values.getD (i + 1 - 1) ⟨"", none⟩).key) = some k
    have hj1 : i + 1 - 1 = i := rfl
    rw [hj1, getD_eq_get st.values i hlt, hkey]
  · intro st h0 h1
    exact redraw_reselect st h0 h1

/-- C9 (witness): for a two-entry table, selecting key b and redrawing keeps
the selection at b; and for a table whose stored position is stale row 2 over
entries a and c (as after selecting b in a three-entry table and removing b),
Redraw leaves the selection at c. -/
theorem redraw_selection_behavior_wit :
    Option.bind (Redraw (Select (SortedTable.mk
      [⟨"a", some [0]⟩, ⟨"b", some [1]⟩] 0 "" 0 false) "b")) GetSelection
      = some "b"
    ∧ Option.bind (Redraw (SortedTable.mk
      [⟨"a", some [0]⟩, ⟨"c", some [2]⟩] 2 "b" 0 false)) GetSelection
      = some "c" := by
  constructor
  · exact redraw_selection_behavior.1 _ "b" 1 (by decide)
  · exact (redraw_selection_behavior.2 (SortedTable.mk
      [⟨"a", some [0]⟩, ⟨"c", some [2]⟩] 2 "b" 0 false)
      (by decide) (by decide)).trans (by decide)

/-- C9 (counterexample to the claim as stated): select b among a, b, c, then
remove b, then Redraw — the selection comes back as c, the key that shifted
into the stale row position, not as the empty no-selection value the claim
promises. -/
theorem redraw_removed_key_cex :
    Option.bind (Redraw (ClearRowData (Select (SortedTable.mk
      [⟨"a", some [0]⟩, ⟨"b", some [1]⟩, ⟨"c", some [2]⟩] 0 "" 0 false) "b")
      "b")) GetSelection = some "c"
    ∧ ("c" : String) ≠ "" := by
  refine ⟨by decide, by decide⟩

end Widget

end Plotng
